import Mathlib

/-!
Verification of the auto-qa repository's scheduler, task lifecycle manager
and merge coordinator against its natural-language specification.

The Python sources are shallowly embedded as pure Lean functions:

* `AutoQA.Mrg.*` embeds `src/apps/brain/src/agents/merging_agent.py`
  (`MergingAgent.collect_agent_results`, `merge_results`,
  `resolve_conflicts`).  Python values flowing through the merge are
  modelled by the inductive `PyVal`; Python `dict`s are association lists
  with Python's assignment semantics (replace in place, else append), and
  Python `dict` equality is lookup equality, so the statements about merged
  data are phrased via `dictGet`.
* `AutoQA.Sched.*` embeds `_execute_tasks_with_parallel` of
  `src/apps/brain/src/agents/enhanced_orchestrator.py` as a round-based
  loop on a scheduler state.  The Python `pending` set's iteration
  order is determinized as insertion order (the code never consults
  priority, so any fixed order refutes priority-sorting claims).
* `AutoQA.TMgr.*` embeds `src/libs/task_manager/src/task_manager.py`
  (`TaskManager`) as a transition system whose events are the atomic
  blocks between `await` points of the single-threaded asyncio program:
  task creation, start of `_execute_task` (the admission block under the
  lock), completion of the awaited unit of work together with the
  `finally` block, the synchronous `cancel_task`, and `shutdown`.
  A ghost `cleanupLog` records each invocation of `_cleanup_task`.
-/

namespace AutoQA

namespace Mrg

/-- A Python value as manipulated by `MergingAgent.merge_results`:
scalars, lists, and string-keyed dicts. -/
inductive PyVal where
  | pyNone : PyVal
  | pyBool : Bool → PyVal
  | pyInt : Int → PyVal
  | pyStr : String → PyVal
  | pyList : List PyVal → PyVal
  | pyDict : List (String × PyVal) → PyVal

/-- A Python dict with string keys, as an association list in insertion
order (Python dicts preserve insertion order). -/
abbrev Dict := List (String × PyVal)

/-- Lookup in a dict (Python `d[k]` / `k in d`). -/
def dictGet (d : Dict) (k : String) : Option PyVal :=
  match d with
  | [] => none
  | (k', v) :: rest => if k' = k then some v else dictGet rest k

/-- Python `key in d`. -/
def dictContains (d : Dict) (k : String) : Bool :=
  (dictGet d k).isSome

/-- Python `d[k] = v`: replace in place if the key exists, else append. -/
def dictSet (d : Dict) (k : String) (v : PyVal) : Dict :=
  match d with
  | [] => [(k, v)]
  | (k', v') :: rest => if k' = k then (k, v) :: rest else (k', v') :: dictSet rest k v

/-- The keys of a dict, in order. -/
def dictKeys (d : Dict) : List String :=
  d.map Prod.fst

/-- Python `d.update(upd)`: shallow union favouring the later entries. -/
def updDict (d : Dict) (upd : Dict) : Dict :=
  upd.foldl (fun acc kv => dictSet acc kv.1 kv.2) d

/-- Is the value neither list-like nor map-like (the `else` branch of
`merge_results`)? -/
def isScalar : PyVal → Bool
  | .pyList _ => false
  | .pyDict _ => false
  | _ => true

/-- What a value becomes when merged at a key that was absent before the
ensure-key step of `merge_results`: a list is extended onto `[]`, a dict is
updated into `{}`, a scalar overwrites. -/
def freshMerge : PyVal → PyVal
  | .pyList l => .pyList l
  | .pyDict d => .pyDict (updDict [] d)
  | v => v

/-- One iteration of the inner `for key, value in results.items()` loop of
`MergingAgent.merge_results` (merging_agent.py lines 107-118), including
the `AttributeError` Python raises when `.extend` is called on a non-list
merged value. -/
def mergeKV (md : Dict) (k : String) (v : PyVal) : Except String Dict :=
  let md1 := if dictContains md k then md else md ++ [(k, PyVal.pyList [])]
  match v with
  | .pyList l =>
    match dictGet md1 k with
    | some (.pyList l0) => .ok (dictSet md1 k (.pyList (l0 ++ l)))
    | _ => .error "AttributeError: object has no attribute extend"
  | .pyDict d =>
    let md2 :=
      match dictGet md1 k with
      | some (.pyDict _) => md1
      | _ => dictSet md1 k (.pyDict [])
    match dictGet md2 k with
    | some (.pyDict d0) => .ok (dictSet md2 k (.pyDict (updDict d0 d)))
    | _ => .ok md2
  | v => .ok (dictSet md1 k v)

/-- Merge one agent's result payload into the accumulated merged data
(the inner loop of `merge_results` over one `results` dict). -/
def mergePayload (md : Dict) (r : Dict) : Except String Dict :=
  match r with
  | [] => .ok md
  | (k, v) :: rest =>
    match mergeKV md k v with
    | .ok md' => mergePayload md' rest
    | .error e => .error e

/-- The outer loop of `merge_results` over `self.agent_results`. -/
def mergeData (md : Dict) : List (String × Dict) → Except String Dict
  | [] => .ok md
  | (_, r) :: rest =>
    match mergePayload md r with
    | .ok md' => mergeData md' rest
    | .error e => .error e

/-- A conflict record as appended by `MergingAgent.resolve_conflicts`. -/
structure Conflict where
  conflictType : String
  agents : List String
  details : String
  resolution : Option String

/-- The mutable state of a `MergingAgent`: collected per-agent results and
the conflict list. -/
structure MergeState where
  agentResults : List (String × Dict)
  conflicts : List Conflict

/-- A freshly constructed `MergingAgent` (empty `agent_results` and
`conflicts`). -/
def MergeState.empty : MergeState := ⟨[], []⟩

/-- Python `self.agent_results[agent_name] = ...` semantics. -/
def setAgentResult (ar : List (String × Dict)) (agent : String) (r : Dict) :
    List (String × Dict) :=
  match ar with
  | [] => [(agent, r)]
  | (a, r') :: rest =>
    if a = agent then (agent, r) :: rest else (a, r') :: setAgentResult rest agent r

/-- `MergingAgent.collect_agent_results`. -/
def collectAgentResults (st : MergeState) (agent : String) (r : Dict) : MergeState :=
  { st with agentResults := setAgentResult st.agentResults agent r }

/-- `MergingAgent.resolve_conflicts`: appends a conflict record with no
resolution; it is the only operation that appends to `conflicts`. -/
def resolveConflicts (st : MergeState) (ctype a1 a2 details : String) : MergeState :=
  { st with conflicts := st.conflicts ++ [⟨ctype, [a1, a2], details, none⟩] }

/-- The output dict built by `MergingAgent.merge_results`. -/
structure MergedResults where
  mergedData : Dict
  totalConflicts : Nat
  conflictsResolved : Nat
  agentsParticipated : List String

/-- `MergingAgent.merge_results`: folds all collected payloads into
`merged_data` and reports the count of the pre-existing conflicts; it never
appends to `conflicts`. -/
def mergeResults (st : MergeState) : Except String MergedResults :=
  match mergeData [] st.agentResults with
  | .ok md =>
    .ok { mergedData := md
          totalConflicts := st.conflicts.length
          conflictsResolved := (st.conflicts.filter (fun c => c.resolution.isSome)).length
          agentsParticipated := st.agentResults.map Prod.fst }
  | .error e => .error e

end Mrg

namespace Sched

/-- A task descriptor as consumed by
`EnhancedOrchestrator._execute_tasks_with_parallel`: its id, its declared
dependencies, its priority hint, and whether its unit of work succeeds
(`succeeds = false` models the `isinstance(result, Exception)` branch of
the result-processing loop). -/
structure OTask where
  taskId : String
  dependencies : List String
  priority : Int
  succeeds : Bool
deriving DecidableEq

/-- The scheduler state threaded through the `while pending` loop of
`_execute_tasks_with_parallel`: the `executed` set, the `pending` set
(determinized to insertion order), the `completed_tests` and
`failed_tests` lists of the context, and a ghost trace of the dispatched
batches in dispatch order. -/
structure SchedState where
  executed : List String
  pending : List String
  completedTests : List String
  failedTests : List String
  batches : List (List String)
deriving DecidableEq

/-- How the scheduler loop exited: `pending` drained, the
`if not ready_tasks: break` branch (deadlock), or the model ran out of
fuel (the Python `while` would still be looping). -/
inductive RunExit where
  | drained
  | deadlock
  | outOfFuel
deriving DecidableEq

/-- `dependencies[task_id]`, built from the task list. -/
def depsOf (tasks : List OTask) (id : String) : List String :=
  match tasks.find? (fun t => t.taskId = id) with
  | some t => t.dependencies
  | none => []

/-- Whether the dispatched unit of work for `id` returns a result (true)
or an exception (false). -/
def succeedsOf (tasks : List OTask) (id : String) : Bool :=
  match tasks.find? (fun t => t.taskId = id) with
  | some t => t.succeeds
  | none => true

/-- `ready_tasks = [tid for tid in pending if dependencies[tid] <= executed]`. -/
def readyTasks (tasks : List OTask) (s : SchedState) : List String :=
  s.pending.filter (fun id => (depsOf tasks id).all (fun d => s.executed.contains d))

/-- Processing one `(task_id, result)` pair of the batch result loop
(enhanced_orchestrator.py lines 215-226): failures are appended to
`failed_tests`, successes to `completed_tests`, and the id is added to
`executed` and removed from `pending` in both cases. -/
def processOne (tasks : List OTask) (s : SchedState) (id : String) : SchedState :=
  let s1 :=
    if succeedsOf tasks id then
      { s with completedTests := s.completedTests ++ [id] }
    else
      { s with failedTests := s.failedTests ++ [id] }
  { s1 with executed := s1.executed ++ [id], pending := s1.pending.erase id }

/-- Processing all outcomes of one dispatched batch, in batch order. -/
def processBatch (tasks : List OTask) (s : SchedState) (batch : List String) : SchedState :=
  batch.foldl (processOne tasks) s

/-- The `while pending` loop of `_execute_tasks_with_parallel`, with fuel
bounding the number of rounds (the Python loop has no such bound; fuel
equal to the number of tasks is enough whenever `max_parallel > 0`,
because every round with a non-empty batch shrinks `pending`). -/
def runLoop (tasks : List OTask) (maxPar : Nat) : Nat → SchedState → SchedState × RunExit
  | 0, s => if s.pending.isEmpty then (s, .drained) else (s, .outOfFuel)
  | fuel + 1, s =>
    if s.pending.isEmpty then (s, .drained)
    else
      let r := readyTasks tasks s
      if r.isEmpty then (s, .deadlock)
      else
        let batch := r.take (min r.length maxPar)
        runLoop tasks maxPar fuel
          (processBatch tasks { s with batches := s.batches ++ [batch] } batch)

/-- The initial scheduler state: nothing executed, every task pending. -/
def initSched (tasks : List OTask) : SchedState :=
  ⟨[], tasks.map OTask.taskId, [], [], []⟩

/-- One whole run of `_execute_tasks_with_parallel` on a task graph. -/
def runScheduler (tasks : List OTask) (maxPar : Nat) : SchedState × RunExit :=
  runLoop tasks maxPar tasks.length (initSched tasks)

/-- The priority of a task id (the `priority` field of the descriptor). -/
def priorityOf (tasks : List OTask) (id : String) : Int :=
  match tasks.find? (fun t => t.taskId = id) with
  | some t => t.priority
  | none => 0

/-- Stable insertion of an id into an already priority-sorted list. -/
def insertByPriority (tasks : List OTask) (id : String) :
    List String → List String
  | [] => [id]
  | x :: xs =>
    if priorityOf tasks id < priorityOf tasks x then id :: x :: xs
    else x :: insertByPriority tasks id xs

/-- Modelled from the spec: the batch-selection order the specification
describes — "ascending priority, then insertion order" — as a stable
insertion sort on priority.  This is the spec-side comparison definition
for claim C9; the source's `_execute_tasks_with_parallel` has no
counterpart (it never reads `priority`). -/
def specBatchOrder (tasks : List OTask) (ids : List String) : List String :=
  ids.foldr (insertByPriority tasks) []

end Sched

namespace TMgr

/-- `TaskStatus` of task_manager.py. -/
inductive TaskStatus where
  | pending
  | running
  | completed
  | failed
  | cancelled
  | timeout
deriving DecidableEq

/-- The outcome of awaiting a task's unit of work inside `_execute_task`:
a result, a raised exception, or `asyncio.TimeoutError`. -/
inductive Outcome where
  | ok : String → Outcome
  | errored : String → Outcome
  | timedOut : Outcome
deriving DecidableEq

/-- A `BackgroundTask` record (timestamps are logical clock ticks). -/
structure BackgroundTask where
  status : TaskStatus
  result : Option String
  errorMsg : Option String
  startedAt : Option Nat
  completedAt : Option Nat
deriving DecidableEq

/-- A freshly created `BackgroundTask` (status `PENDING`, nothing set). -/
def newTask : BackgroundTask :=
  ⟨.pending, none, none, none, none⟩

/-- The `TaskManager` state: the `tasks` registry in insertion order, the
`running_tasks` counter, the configured ceiling, a logical clock, and a
ghost log recording one entry per invocation of `_cleanup_task`. -/
structure MState where
  tasks : List (String × BackgroundTask)
  runningTasks : Nat
  maxConcurrentTasks : Nat
  clock : Nat
  cleanupLog : List String
deriving DecidableEq

/-- `self.tasks.get(task_id)`. -/
def taskGet (ts : List (String × BackgroundTask)) (id : String) :
    Option BackgroundTask :=
  match ts with
  | [] => none
  | (id', t) :: rest => if id' = id then some t else taskGet rest id

/-- `self.tasks[task_id] = task` semantics. -/
def taskSet (ts : List (String × BackgroundTask)) (id : String)
    (t : BackgroundTask) : List (String × BackgroundTask) :=
  match ts with
  | [] => [(id, t)]
  | (id', t') :: rest =>
    if id' = id then (id, t) :: rest else (id', t') :: taskSet rest id t

/-- A `TaskManager(max_concurrent_tasks)` fresh instance. -/
def initM (maxConc : Nat) : MState :=
  ⟨[], 0, maxConc, 0, []⟩

/-- The atomic events of the asyncio interleaving model. -/
inductive MEvent where
  | create : String → MEvent
  | startExec : String → MEvent
  | finish : String → Outcome → MEvent
  | cancel : String → MEvent
  | shutdown : MEvent

/-- `create_task`: registers a fresh `PENDING` record and schedules
`_execute_task` — with no capacity check of any kind. -/
def stepCreate (s : MState) (id : String) : MState :=
  { s with tasks := taskSet s.tasks id newTask, clock := s.clock + 1 }

/-- The admission block at the top of `_execute_task` (lines 119-129),
executed under the lock: at the ceiling the record is marked `FAILED`
with the capacity error and the function returns (no cleanup, no
increment); otherwise `running_tasks` is incremented and the record
becomes `RUNNING`.  The guard on `PENDING` determinizes the fact that
`_execute_task` runs exactly once per created task. -/
def stepStart (s : MState) (id : String) : MState :=
  match taskGet s.tasks id with
  | none => s
  | some t =>
    if t.status = .pending then
      if s.maxConcurrentTasks ≤ s.runningTasks then
        { s with
          tasks := taskSet s.tasks id
            { t with status := .failed, errorMsg := some "Max concurrent tasks reached" }
          clock := s.clock + 1 }
      else
        { s with
          tasks := taskSet s.tasks id
            { t with status := .running, startedAt := some s.clock }
          runningTasks := s.runningTasks + 1
          clock := s.clock + 1 }
    else s

/-- `_cleanup_task`: runs the cleanup handlers; modelled by the ghost log. -/
def runCleanup (s : MState) (id : String) : MState :=
  { s with cleanupLog := s.cleanupLog ++ [id] }

/-- The completion of the awaited unit of work plus the `try/except` and
`finally` blocks of `_execute_task` (lines 131-159): the status is
assigned from the outcome — overwriting whatever status the record has at
that moment, including `CANCELLED` — then `running_tasks` is decremented,
`completed_at` is stamped and `_cleanup_task` runs.  The guard (started
but not yet completed) determinizes that a created execution finishes
exactly once, and only after it was admitted. -/
def stepFinish (s : MState) (id : String) (o : Outcome) : MState :=
  match taskGet s.tasks id with
  | none => s
  | some t =>
    if t.startedAt.isSome && t.completedAt.isNone then
      let t1 :=
        match o with
        | .ok r => { t with status := .completed, result := some r }
        | .errored m => { t with status := .failed, errorMsg := some m }
        | .timedOut => { t with status := .timeout, errorMsg := some "Task timeout" }
      runCleanup
        { s with
          tasks := taskSet s.tasks id { t1 with completedAt := some s.clock }
          runningTasks := s.runningTasks - 1
          clock := s.clock + 1 }
        id
    else s

/-- `cancel_task` (lines 175-191): returns `False` for an unknown id or a
record whose status is anything but `RUNNING`, leaving the state
untouched; otherwise flags the record `CANCELLED` and returns `True`.  It
never touches `running_tasks` and never interrupts the in-flight unit of
work. -/
def cancelTask (s : MState) (id : String) : Bool × MState :=
  match taskGet s.tasks id with
  | none => (false, s)
  | some t =>
    if t.status = .running then
      (true,
        { s with
          tasks := taskSet s.tasks id
            { t with status := .cancelled, errorMsg := some "Task cancelled by user" } })
    else (false, s)

/-- `shutdown` (lines 306-324): cancels every `RUNNING` record, then runs
`_cleanup_task` for every record in the registry (whether or not its
cleanup already ran), then clears the registry. -/
def stepShutdown (s : MState) : MState :=
  let tasks1 := s.tasks.map (fun p =>
    if p.2.status = .running then
      (p.1, { p.2 with status := TaskStatus.cancelled,
                       errorMsg := some "Task cancelled by user" })
    else p)
  { s with
    tasks := []
    cleanupLog := s.cleanupLog ++ tasks1.map Prod.fst }

/-- One atomic step of the interleaving model. -/
def step (s : MState) : MEvent → MState
  | .create id => stepCreate s id
  | .startExec id => stepStart s id
  | .finish id o => stepFinish s id o
  | .cancel id => (cancelTask s id).2
  | .shutdown => stepShutdown s

/-- Run a sequence of events. -/
def run (s : MState) (evs : List MEvent) : MState :=
  evs.foldl step s

/-- The status of a task in the registry. -/
def statusOf (s : MState) (id : String) : Option TaskStatus :=
  (taskGet s.tasks id).map BackgroundTask.status

/-- The recorded error message of a task. -/
def errorOf (s : MState) (id : String) : Option String :=
  match taskGet s.tasks id with
  | some t => t.errorMsg
  | none => none

/-- Terminal statuses (Completed/Failed/Cancelled/TimedOut). -/
def isTerminal : TaskStatus → Bool
  | .completed => true
  | .failed => true
  | .cancelled => true
  | .timeout => true
  | _ => false

/-- The module-level `get_task_manager` factory (lines 354-362): creates
the global instance on first call, returns it unchanged — ignoring its
`max_concurrent` argument — on every later call. -/
def getTaskManager (g : Option MState) (maxConcurrent : Nat) :
    MState × Option MState :=
  match g with
  | none =>
    let tm := initM maxConcurrent
    (tm, some tm)
  | some tm => (tm, some tm)

/-- A sequence of further `get_task_manager` calls threading the global. -/
def applyCalls (g : Option MState) (ms : List Nat) : Option MState :=
  ms.foldl (fun g m => (getTaskManager g m).2) g

end TMgr

end AutoQA

namespace AutoQA.Mrg

/-- A value is well formed when any dict it consists of at the top level
has pairwise distinct keys (true of every real Python dict). -/
def wfVal : PyVal → Prop
  | .pyDict d => (dictKeys d).Nodup
  | _ => True

instance : DecidablePred wfVal := fun v =>
  match v with
  | .pyDict d => inferInstanceAs (Decidable ((dictKeys d).Nodup))
  | .pyNone => inferInstanceAs (Decidable True)
  | .pyBool _ => inferInstanceAs (Decidable True)
  | .pyInt _ => inferInstanceAs (Decidable True)
  | .pyStr _ => inferInstanceAs (Decidable True)
  | .pyList _ => inferInstanceAs (Decidable True)

@[simp] theorem dictKeys_nil : dictKeys [] = [] := rfl

@[simp] theorem dictKeys_cons (a : String) (b : PyVal) (rest : Dict) :
    dictKeys ((a, b) :: rest) = a :: dictKeys rest := rfl

theorem dictKeys_append (d e : Dict) :
    dictKeys (d ++ e) = dictKeys d ++ dictKeys e := by
  simp [dictKeys]

@[simp] theorem dictGet_nil (k : String) : dictGet [] k = none := rfl

@[simp] theorem dictGet_cons (a : String) (b : PyVal) (rest : Dict) (k : String) :
    dictGet ((a, b) :: rest) k = if a = k then some b else dictGet rest k := rfl

theorem dictGet_append (d e : Dict) (k : String) :
    dictGet (d ++ e) k =
      match dictGet d k with
      | some v => some v
      | none => dictGet e k := by
  induction d with
  | nil => simp
  | cons kv rest ih =>
    obtain ⟨k', v⟩ := kv
    by_cases h : k' = k <;> simp [h, ih]

theorem dictGet_dictSet_self (d : Dict) (k : String) (v : PyVal) :
    dictGet (dictSet d k v) k = some v := by
  induction d with
  | nil => simp [dictSet]
  | cons kv rest ih =>
    obtain ⟨k', v'⟩ := kv
    by_cases h : k' = k <;> simp [dictSet, h, ih]

theorem dictGet_dictSet_ne (d : Dict) (k k' : String) (v : PyVal)
    (h : k' ≠ k) : dictGet (dictSet d k v) k' = dictGet d k' := by
  have h2 : k ≠ k' := Ne.symm h
  induction d with
  | nil => simp [dictSet, h2]
  | cons kv rest ih =>
    obtain ⟨a, b⟩ := kv
    by_cases ha : a = k
    · subst ha
      simp [dictSet, h2]
    · by_cases ha' : a = k'
      · subst ha'
        simp [dictSet, ha]
      · simp [dictSet, ha, ha', ih]

theorem mem_dictKeys_dictSet (d : Dict) (k k' : String) (v : PyVal) :
    k' ∈ dictKeys (dictSet d k v) ↔ k' ∈ dictKeys d ∨ k' = k := by
  induction d with
  | nil => simp [dictSet]
  | cons kv rest ih =>
    obtain ⟨a, b⟩ := kv
    by_cases ha : a = k
    · subst ha
      simp [dictSet]
      tauto
    · simp [dictSet, ha, ih]
      tauto

theorem dictGet_eq_none_of_not_mem (d : Dict) (k : String)
    (h : k ∉ dictKeys d) : dictGet d k = none := by
  induction d with
  | nil => rfl
  | cons kv rest ih =>
    obtain ⟨a, b⟩ := kv
    rw [dictKeys_cons] at h
    have ha : a ≠ k := fun he => h (he ▸ List.mem_cons_self a (dictKeys rest))
    have hrest : k ∉ dictKeys rest := fun hm => h (List.mem_cons_of_mem a hm)
    simp [ha, ih hrest]

theorem mem_dictKeys_of_dictGet (d : Dict) (k : String) (v : PyVal)
    (h : dictGet d k = some v) : k ∈ dictKeys d := by
  by_contra hk
  rw [dictGet_eq_none_of_not_mem d k hk] at h
  exact Option.noConfusion h

theorem mem_of_dictGet (d : Dict) (k : String) (v : PyVal)
    (h : dictGet d k = some v) : (k, v) ∈ d := by
  induction d with
  | nil => exact Option.noConfusion h
  | cons kv rest ih =>
    obtain ⟨a, b⟩ := kv
    by_cases ha : a = k
    · subst ha
      simp at h
      simp [h]
    · simp [ha] at h
      exact List.mem_cons_of_mem _ (ih h)

theorem dictSet_fresh_append (d : Dict) (k : String) (v : PyVal)
    (h : dictGet d k = none) : dictSet d k v = d ++ [(k, v)] := by
  induction d with
  | nil => rfl
  | cons kv rest ih =>
    obtain ⟨a, b⟩ := kv
    by_cases ha : a = k
    · simp [ha] at h
    · simp [ha] at h
      simp [dictSet, ha, ih h]

theorem updDict_fresh_append (upd : Dict) :
    ∀ d : Dict, (∀ k ∈ dictKeys upd, dictGet d k = none) →
      (dictKeys upd).Nodup → updDict d upd = d ++ upd := by
  induction upd with
  | nil => intro d _ _; simp [updDict]
  | cons kv rest ih =>
    intro d hfresh hn
    obtain ⟨k, v⟩ := kv
    rw [dictKeys_cons, List.nodup_cons] at hn
    have hdk : dictGet d k = none :=
      hfresh k (by rw [dictKeys_cons]; exact List.mem_cons_self _ _)
    have hstep : updDict d ((k, v) :: rest) = updDict (dictSet d k v) rest := rfl
    rw [hstep, dictSet_fresh_append d k v hdk]
    rw [ih (d ++ [(k, v)]) ?fresh hn.2]
    · simp
    case fresh =>
      intro k' hk'
      rw [dictGet_append]
      rw [hfresh k' (by rw [dictKeys_cons]; exact List.mem_cons_of_mem _ hk')]
      have hne : k ≠ k' := by
        intro he
        exact hn.1 (he ▸ hk')
      simp [hne]

theorem updDict_nil (d : Dict) (hn : (dictKeys d).Nodup) :
    updDict [] d = d := by
  have := updDict_fresh_append d [] (fun k _ => rfl) hn
  simpa using this

theorem freshMerge_eq_self (v : PyVal) (h : wfVal v) : freshMerge v = v := by
  cases v with
  | pyDict d => simpa [freshMerge] using updDict_nil d h
  | pyList l => rfl
  | pyNone => rfl
  | pyBool b => rfl
  | pyInt n => rfl
  | pyStr s => rfl

theorem mergeKV_fresh (md : Dict) (k : String) (v : PyVal)
    (h : dictGet md k = none) :
    ∃ md', mergeKV md k v = .ok md' ∧
      dictGet md' k = some (freshMerge v) ∧
      (∀ k', k' ≠ k → dictGet md' k' = dictGet md k') ∧
      (∀ k', k' ∈ dictKeys md' ↔ k' ∈ dictKeys md ∨ k' = k) := by
  have hc : dictContains md k = false := by
    simp [dictContains, h]
  have h1 : dictGet (md ++ [(k, PyVal.pyList [])]) k = some (.pyList []) := by
    rw [dictGet_append, h]
    simp
  have h1ne : ∀ k', k' ≠ k →
      dictGet (md ++ [(k, PyVal.pyList [])]) k' = dictGet md k' := by
    intro k' hk'
    have hk2 : k ≠ k' := Ne.symm hk'
    rw [dictGet_append]
    cases hmd : dictGet md k' with
    | some w => rfl
    | none => simp [hk2]
  have h1keys : ∀ k', k' ∈ dictKeys (md ++ [(k, PyVal.pyList [])]) ↔
      k' ∈ dictKeys md ∨ k' = k := by
    intro k'
    rw [dictKeys_append]
    simp
  cases v with
  | pyList l =>
    refine ⟨dictSet (md ++ [(k, PyVal.pyList [])]) k (.pyList l), ?_, ?_, ?_, ?_⟩
    · simp [mergeKV, hc, h1]
    · simp [dictGet_dictSet_self, freshMerge]
    · intro k' hk'
      rw [dictGet_dictSet_ne _ _ _ _ hk', h1ne k' hk']
    · intro k'
      rw [mem_dictKeys_dictSet, h1keys]
      tauto
  | pyDict d =>
    refine ⟨dictSet (dictSet (md ++ [(k, PyVal.pyList [])]) k (.pyDict []))
        k (.pyDict (updDict [] d)), ?_, ?_, ?_, ?_⟩
    · simp [mergeKV, hc, h1, dictGet_dictSet_self]
    · simp [dictGet_dictSet_self, freshMerge]
    · intro k' hk'
      rw [dictGet_dictSet_ne _ _ _ _ hk', dictGet_dictSet_ne _ _ _ _ hk',
        h1ne k' hk']
    · intro k'
      rw [mem_dictKeys_dictSet, mem_dictKeys_dictSet, h1keys]
      tauto
  | pyNone =>
    refine ⟨dictSet (md ++ [(k, PyVal.pyList [])]) k .pyNone, ?_, ?_, ?_, ?_⟩
    · simp [mergeKV, hc]
    · simp [dictGet_dictSet_self, freshMerge]
    · intro k' hk'
      rw [dictGet_dictSet_ne _ _ _ _ hk', h1ne k' hk']
    · intro k'
      rw [mem_dictKeys_dictSet, h1keys]
      tauto
  | pyBool b =>
    refine ⟨dictSet (md ++ [(k, PyVal.pyList [])]) k (.pyBool b), ?_, ?_, ?_, ?_⟩
    · simp [mergeKV, hc]
    · simp [dictGet_dictSet_self, freshMerge]
    · intro k' hk'
      rw [dictGet_dictSet_ne _ _ _ _ hk', h1ne k' hk']
    · intro k'
      rw [mem_dictKeys_dictSet, h1keys]
      tauto
  | pyInt n =>
    refine ⟨dictSet (md ++ [(k, PyVal.pyList [])]) k (.pyInt n), ?_, ?_, ?_, ?_⟩
    · simp [mergeKV, hc]
    · simp [dictGet_dictSet_self, freshMerge]
    · intro k' hk'
      rw [dictGet_dictSet_ne _ _ _ _ hk', h1ne k' hk']
    · intro k'
      rw [mem_dictKeys_dictSet, h1keys]
      tauto
  | pyStr t =>
    refine ⟨dictSet (md ++ [(k, PyVal.pyList [])]) k (.pyStr t), ?_, ?_, ?_, ?_⟩
    · simp [mergeKV, hc]
    · simp [dictGet_dictSet_self, freshMerge]
    · intro k' hk'
      rw [dictGet_dictSet_ne _ _ _ _ hk', h1ne k' hk']
    · intro k'
      rw [mem_dictKeys_dictSet, h1keys]
      tauto

theorem mergePayload_fresh :
    ∀ (r : Dict) (md : Dict), (dictKeys r).Nodup →
      (∀ k ∈ dictKeys r, dictGet md k = none) →
      ∃ md', mergePayload md r = .ok md' ∧
        (∀ k, dictGet md' k =
          match dictGet r k with
          | some v => some (freshMerge v)
          | none => dictGet md k) ∧
        (∀ k, k ∈ dictKeys md' ↔ k ∈ dictKeys md ∨ k ∈ dictKeys r) := by
  intro r
  induction r with
  | nil =>
    intro md _ _
    refine ⟨md, rfl, ?_, ?_⟩
    · intro k
      simp
    · intro k
      simp
  | cons kv rest ih =>
    intro md hn hfresh
    obtain ⟨k, v⟩ := kv
    rw [dictKeys_cons, List.nodup_cons] at hn
    have hmdk : dictGet md k = none :=
      hfresh k (by rw [dictKeys_cons]; exact List.mem_cons_self _ _)
    obtain ⟨md1, hkv, hget1, hne1, hkeys1⟩ := mergeKV_fresh md k v hmdk
    have hfresh1 : ∀ k' ∈ dictKeys rest, dictGet md1 k' = none := by
      intro k' hk'
      have hne : k' ≠ k := by
        intro he
        exact hn.1 (he ▸ hk')
      rw [hne1 k' hne]
      exact hfresh k' (by rw [dictKeys_cons]; exact List.mem_cons_of_mem _ hk')
    obtain ⟨md', hrest, hget', hkeys'⟩ := ih md1 hn.2 hfresh1
    refine ⟨md', ?_, ?_, ?_⟩
    · show mergePayload md ((k, v) :: rest) = .ok md'
      simp only [mergePayload, hkv]
      exact hrest
    · intro q
      by_cases hq : q = k
      · subst hq
        have hrq : dictGet rest q = none :=
          dictGet_eq_none_of_not_mem rest q hn.1
        have hval : dictGet md' q = some (freshMerge v) := by
          have hq' := hget' q
          rw [hrq] at hq'
          rw [hq']
          exact hget1
        rw [hval]
        simp
      · have hq2 : k ≠ q := Ne.symm hq
        rw [dictGet_cons, if_neg hq2]
        have hq' := hget' q
        cases hrq : dictGet rest q with
        | some w =>
          rw [hrq] at hq'
          rw [hq']
        | none =>
          rw [hrq] at hq'
          rw [hq', hne1 q hq]
    · intro q
      rw [hkeys' q, hkeys1 q, dictKeys_cons]
      simp
      tauto

end AutoQA.Mrg

namespace AutoQA.Sched

theorem processOne_executed (tasks : List OTask) (s : SchedState) (id : String) :
    (processOne tasks s id).executed = s.executed ++ [id] := by
  unfold processOne
  by_cases h : succeedsOf tasks id = true <;> simp [h]

theorem processOne_pending (tasks : List OTask) (s : SchedState) (id : String) :
    (processOne tasks s id).pending = s.pending.erase id := by
  unfold processOne
  by_cases h : succeedsOf tasks id = true <;> simp [h]

theorem processOne_batches (tasks : List OTask) (s : SchedState) (id : String) :
    (processOne tasks s id).batches = s.batches := by
  unfold processOne
  by_cases h : succeedsOf tasks id = true <;> simp [h]

theorem processOne_completed (tasks : List OTask) (s : SchedState) (id : String) :
    (processOne tasks s id).completedTests = s.completedTests ∨
    (processOne tasks s id).completedTests = s.completedTests ++ [id] := by
  unfold processOne
  by_cases h : succeedsOf tasks id = true <;> simp [h]

theorem processOne_failed (tasks : List OTask) (s : SchedState) (id : String) :
    (processOne tasks s id).failedTests = s.failedTests ∨
    (processOne tasks s id).failedTests = s.failedTests ++ [id] := by
  unfold processOne
  by_cases h : succeedsOf tasks id = true <;> simp [h]

theorem processOne_failed_of_fails (tasks : List OTask) (s : SchedState)
    (id : String) (h : succeedsOf tasks id = false) :
    (processOne tasks s id).failedTests = s.failedTests ++ [id] := by
  unfold processOne
  simp [h]

theorem processBatch_batches (tasks : List OTask) (batch : List String) :
    ∀ s : SchedState, (processBatch tasks s batch).batches = s.batches := by
  induction batch with
  | nil => intro s; rfl
  | cons hd tl ih =>
    intro s
    show (processBatch tasks (processOne tasks s hd) tl).batches = s.batches
    rw [ih, processOne_batches]

theorem processBatch_executed_mono (tasks : List OTask) (batch : List String) :
    ∀ (s : SchedState) (x : String), x ∈ s.executed →
      x ∈ (processBatch tasks s batch).executed := by
  induction batch with
  | nil => intro s x hx; exact hx
  | cons hd tl ih =>
    intro s x hx
    show x ∈ (processBatch tasks (processOne tasks s hd) tl).executed
    refine ih _ x ?_
    rw [processOne_executed]
    exact List.mem_append_left _ hx

theorem processBatch_mem_executed (tasks : List OTask) (batch : List String) :
    ∀ (s : SchedState) (id : String), id ∈ batch →
      id ∈ (processBatch tasks s batch).executed := by
  induction batch with
  | nil => intro s id h; exact absurd h (List.not_mem_nil id)
  | cons hd tl ih =>
    intro s id h
    show id ∈ (processBatch tasks (processOne tasks s hd) tl).executed
    rcases List.mem_cons.mp h with he | ht
    · subst he
      refine processBatch_executed_mono tasks tl _ id ?_
      rw [processOne_executed]
      exact List.mem_append_right _ (List.mem_singleton.mpr rfl)
    · exact ih _ id ht

theorem processBatch_failed_mono (tasks : List OTask) (batch : List String) :
    ∀ (s : SchedState) (x : String), x ∈ s.failedTests →
      x ∈ (processBatch tasks s batch).failedTests := by
  induction batch with
  | nil => intro s x hx; exact hx
  | cons hd tl ih =>
    intro s x hx
    show x ∈ (processBatch tasks (processOne tasks s hd) tl).failedTests
    refine ih _ x ?_
    rcases processOne_failed tasks s hd with h | h <;> rw [h]
    · exact hx
    · exact List.mem_append_left _ hx

theorem processBatch_mem_failed (tasks : List OTask) (batch : List String) :
    ∀ (s : SchedState) (id : String), id ∈ batch →
      succeedsOf tasks id = false →
      id ∈ (processBatch tasks s batch).failedTests := by
  induction batch with
  | nil => intro s id h _; exact absurd h (List.not_mem_nil id)
  | cons hd tl ih =>
    intro s id h hf
    show id ∈ (processBatch tasks (processOne tasks s hd) tl).failedTests
    rcases List.mem_cons.mp h with he | ht
    · subst he
      refine processBatch_failed_mono tasks tl _ id ?_
      rw [processOne_failed_of_fails tasks s id hf]
      exact List.mem_append_right _ (List.mem_singleton.mpr rfl)
    · exact ih _ id ht hf

/-- The invariant used for claim C5: pending ids are distinct and appear
in neither outcome list. -/
def SInv (s : SchedState) : Prop :=
  s.pending.Nodup ∧ ∀ id ∈ s.pending, id ∉ s.completedTests ∧ id ∉ s.failedTests

theorem processOne_SInv (tasks : List OTask) (s : SchedState) (id : String)
    (h : SInv s) : SInv (processOne tasks s id) := by
  obtain ⟨hnd, hmem⟩ := h
  constructor
  · rw [processOne_pending]
    exact hnd.erase id
  · intro id' hid'
    rw [processOne_pending] at hid'
    obtain ⟨hne, hp⟩ := hnd.mem_erase_iff.mp hid'
    obtain ⟨hc, hf⟩ := hmem id' hp
    constructor
    · rcases processOne_completed tasks s id with hh | hh <;> rw [hh]
      · exact hc
      · intro hmem'
        rcases List.mem_append.mp hmem' with h1 | h1
        · exact hc h1
        · exact hne (List.mem_singleton.mp h1)
    · rcases processOne_failed tasks s id with hh | hh <;> rw [hh]
      · exact hf
      · intro hmem'
        rcases List.mem_append.mp hmem' with h1 | h1
        · exact hf h1
        · exact hne (List.mem_singleton.mp h1)

theorem processBatch_SInv (tasks : List OTask) (batch : List String) :
    ∀ s : SchedState, SInv s → SInv (processBatch tasks s batch) := by
  induction batch with
  | nil => intro s h; exact h
  | cons hd tl ih =>
    intro s h
    exact ih _ (processOne_SInv tasks s hd h)

theorem runLoop_SInv (tasks : List OTask) (maxPar : Nat) :
    ∀ (fuel : Nat) (s : SchedState), SInv s →
      SInv (runLoop tasks maxPar fuel s).1 := by
  intro fuel
  induction fuel with
  | zero =>
    intro s h
    by_cases hp : s.pending.isEmpty <;> simp [runLoop, hp] <;> exact h
  | succ n ih =>
    intro s h
    by_cases hp : s.pending.isEmpty
    · simpa [runLoop, hp] using h
    · by_cases hr : (readyTasks tasks s).isEmpty
      · simpa [runLoop, hp, hr] using h
      · simp only [runLoop, hp, hr, Bool.false_eq_true, if_false]
        refine ih _ (processBatch_SInv tasks _ _ ?_)
        exact ⟨h.1, h.2⟩

theorem runLoop_deadlock_pending (tasks : List OTask) (maxPar : Nat) :
    ∀ (fuel : Nat) (s : SchedState),
      (runLoop tasks maxPar fuel s).2 = .deadlock →
      (runLoop tasks maxPar fuel s).1.pending ≠ [] := by
  intro fuel
  induction fuel with
  | zero =>
    intro s h
    by_cases hp : s.pending.isEmpty <;> simp [runLoop, hp] at h ⊢
  | succ n ih =>
    intro s h
    by_cases hp : s.pending.isEmpty
    · simp [runLoop, hp] at h
    · by_cases hr : (readyTasks tasks s).isEmpty
      · simp only [runLoop, hp, hr, Bool.false_eq_true, if_false, if_true, ite_self] at h ⊢
        simp only [List.isEmpty_iff] at hp
        simpa [hr] using hp
      · simp only [runLoop, hp, hr, Bool.false_eq_true, if_false] at h ⊢
        exact ih _ h

/-- The invariant used for claim C9: every recorded batch respects the
`max_parallel` ceiling. -/
def BInv (maxPar : Nat) (s : SchedState) : Prop :=
  ∀ b ∈ s.batches, b.length ≤ maxPar

theorem runLoop_BInv (tasks : List OTask) (maxPar : Nat) :
    ∀ (fuel : Nat) (s : SchedState), BInv maxPar s →
      BInv maxPar (runLoop tasks maxPar fuel s).1 := by
  intro fuel
  induction fuel with
  | zero =>
    intro s h
    by_cases hp : s.pending.isEmpty <;> simp [runLoop, hp] <;> exact h
  | succ n ih =>
    intro s h
    by_cases hp : s.pending.isEmpty
    · simpa [runLoop, hp] using h
    · by_cases hr : (readyTasks tasks s).isEmpty
      · simpa [runLoop, hp, hr] using h
      · simp only [runLoop, hp, hr, Bool.false_eq_true, if_false]
        refine ih _ ?_
        intro b hb
        rw [processBatch_batches] at hb
        simp only [List.mem_append, List.mem_singleton] at hb
        rcases hb with hb | hb
        · exact h b hb
        · subst hb
          rw [List.length_take]
          omega

end AutoQA.Sched

namespace AutoQA.TMgr

theorem taskGet_taskSet_self (ts : List (String × BackgroundTask))
    (id : String) (t : BackgroundTask) :
    taskGet (taskSet ts id t) id = some t := by
  induction ts with
  | nil => simp [taskSet, taskGet]
  | cons kv rest ih =>
    obtain ⟨a, b⟩ := kv
    by_cases h : a = id <;> simp [taskSet, taskGet, h, ih]

theorem taskGet_taskSet_ne (ts : List (String × BackgroundTask))
    (id id' : String) (t : BackgroundTask) (h : id' ≠ id) :
    taskGet (taskSet ts id t) id' = taskGet ts id' := by
  have h2 : id ≠ id' := Ne.symm h
  induction ts with
  | nil => simp [taskSet, taskGet, h2]
  | cons kv rest ih =>
    obtain ⟨a, b⟩ := kv
    by_cases ha : a = id
    · subst ha
      simp [taskSet, taskGet, h2]
    · by_cases ha' : a = id'
      · subst ha'
        simp [taskSet, taskGet, ha]
      · simp [taskSet, taskGet, ha, ha', ih]

/-- No step of the manager model changes the configured ceiling. -/
theorem step_max_eq (s : MState) (e : MEvent) :
    (step s e).maxConcurrentTasks = s.maxConcurrentTasks := by
  cases e with
  | create id => rfl
  | startExec id =>
    simp only [step, stepStart]
    cases taskGet s.tasks id with
    | none => rfl
    | some t =>
      simp only []
      split_ifs <;> rfl
  | finish id o =>
    simp only [step, stepFinish]
    cases taskGet s.tasks id with
    | none => rfl
    | some t =>
      simp only []
      split_ifs <;> rfl
  | cancel id =>
    simp only [step, cancelTask]
    cases taskGet s.tasks id with
    | none => rfl
    | some t =>
      simp only []
      split_ifs <;> rfl
  | shutdown => rfl

/-- One step of the manager model never lifts `running_tasks` above the
ceiling: the admission block increments only after its `running_tasks <
max_concurrent_tasks` check, and every other mutation leaves the counter
equal or smaller. -/
theorem step_running_le (s : MState) (e : MEvent)
    (h : s.runningTasks ≤ s.maxConcurrentTasks) :
    (step s e).runningTasks ≤ s.maxConcurrentTasks := by
  cases e with
  | create id => exact h
  | startExec id =>
    simp only [step, stepStart]
    cases taskGet s.tasks id with
    | none => exact h
    | some t =>
      simp only []
      split_ifs with hp hcap
      · exact h
      · show s.runningTasks + 1 ≤ s.maxConcurrentTasks
        omega
      · exact h
  | finish id o =>
    simp only [step, stepFinish]
    cases taskGet s.tasks id with
    | none => exact h
    | some t =>
      simp only []
      split_ifs with hf
      · show s.runningTasks - 1 ≤ s.maxConcurrentTasks
        omega
      · exact h
  | cancel id =>
    simp only [step, cancelTask]
    cases taskGet s.tasks id with
    | none => exact h
    | some t =>
      simp only []
      split_ifs <;> exact h
  | shutdown => exact h

theorem run_max_eq (evs : List MEvent) :
    ∀ s : MState, (run s evs).maxConcurrentTasks = s.maxConcurrentTasks := by
  induction evs with
  | nil => intro s; rfl
  | cons e rest ih =>
    intro s
    show (run (step s e) rest).maxConcurrentTasks = s.maxConcurrentTasks
    rw [ih, step_max_eq]

theorem run_bound (evs : List MEvent) :
    ∀ s : MState, s.runningTasks ≤ s.maxConcurrentTasks →
      (run s evs).runningTasks ≤ (run s evs).maxConcurrentTasks := by
  induction evs with
  | nil => intro s h; exact h
  | cons e rest ih =>
    intro s h
    show (run (step s e) rest).runningTasks ≤ (run (step s e) rest).maxConcurrentTasks
    refine ih (step s e) ?_
    rw [step_max_eq]
    exact step_running_le s e h

end AutoQA.TMgr

namespace AutoQA.Mrg

/-- Merging exactly two collected payloads whose keys are fresh step by
step: the second payload's keys must not occur in the first.  Gives the
lookup characterization of the merged data. -/
theorem mergeResults_two_fresh (a b : String) (ra rb : Dict) (hab : a ≠ b)
    (hna : (dictKeys ra).Nodup) (hnb : (dictKeys rb).Nodup)
    (hdisj : ∀ k ∈ dictKeys rb, dictGet ra k = none) :
    ∃ m, mergeResults (collectAgentResults (collectAgentResults
        MergeState.empty a ra) b rb) = .ok m ∧
      m.totalConflicts = 0 ∧
      ∀ k, dictGet m.mergedData k =
        match dictGet rb k with
        | some v => some (freshMerge v)
        | none =>
          match dictGet ra k with
          | some v => some (freshMerge v)
          | none => none := by
  have hst : (collectAgentResults (collectAgentResults
      MergeState.empty a ra) b rb).agentResults = [(a, ra), (b, rb)] := by
    simp [collectAgentResults, MergeState.empty, setAgentResult, hab]
  have hcf : (collectAgentResults (collectAgentResults
      MergeState.empty a ra) b rb).conflicts = [] := rfl
  obtain ⟨md1, hp1, hg1, hk1⟩ :=
    mergePayload_fresh ra [] hna (fun k _ => rfl)
  have hfresh2 : ∀ k ∈ dictKeys rb, dictGet md1 k = none := by
    intro k hk
    have hra : dictGet ra k = none := hdisj k hk
    have := hg1 k
    rw [hra] at this
    rw [this]
    rfl
  obtain ⟨md2, hp2, hg2, hk2⟩ := mergePayload_fresh rb md1 hnb hfresh2
  have hmd : mergeData [] [(a, ra), (b, rb)] = .ok md2 := by
    simp only [mergeData, hp1, hp2]
  refine ⟨⟨md2, 0, 0, [a, b]⟩, ?_, rfl, ?_⟩
  · simp only [mergeResults, hst, hcf, hmd]
    rfl
  · intro k
    show dictGet md2 k = _
    rw [hg2 k]
    cases hrb : dictGet rb k with
    | some w => rfl
    | none =>
      rw [hg1 k]
      rfl

/-- Claim C3 (counterexample): merging the spec's own scenario
`{A: {x: 1}}` and `{B: {x: 2}}` yields `x: 2` with an EMPTY conflict
list and `total_conflicts = 0` — `merge_results` records no conflict at
all, contradicting the claimed "exactly one recorded conflict naming A
and B" (conflicts are only ever appended by an explicit
`resolve_conflicts` call). -/
theorem c3_no_conflict_recorded_cex :
    mergeResults (collectAgentResults (collectAgentResults MergeState.empty "A"
      [("x", .pyInt 1)]) "B" [("x", .pyInt 2)]) =
      .ok ⟨[("x", .pyInt 2)], 0, 0, ["A", "B"]⟩ ∧
    (collectAgentResults (collectAgentResults MergeState.empty "A"
      [("x", .pyInt 1)]) "B" [("x", .pyInt 2)]).conflicts = [] :=
  ⟨rfl, rfl⟩

/-- Claim C3 (amended): when the existing merged value and the incoming
value for a key are both scalars, the later arrival silently overwrites
the earlier one; `merge_results` appends no conflict record (its conflict
counters only reflect conflicts previously appended by explicit
`resolve_conflicts` calls, and the state's conflict list stays empty), and
no error is raised: merging `{a: {k: v1}}` then `{b: {k: v2}}` returns
`{k: v2}` with zero conflicts. -/
theorem c3_scalar_overwrite_silent (a b k : String) (v1 v2 : PyVal)
    (hab : a ≠ b) (h1 : isScalar v1 = true) (h2 : isScalar v2 = true) :
    mergeResults (collectAgentResults (collectAgentResults MergeState.empty a
      [(k, v1)]) b [(k, v2)]) = .ok ⟨[(k, v2)], 0, 0, [a, b]⟩ ∧
    (collectAgentResults (collectAgentResults MergeState.empty a
      [(k, v1)]) b [(k, v2)]).conflicts = [] := by
  constructor
  · cases v1 <;> cases v2 <;>
      simp_all [mergeResults, collectAgentResults, MergeState.empty,
        setAgentResult, hab, mergeData, mergePayload, mergeKV, dictContains,
        dictGet, dictSet, isScalar]
  · rfl

/-- Claim C3 witness: the amended statement applied to the concrete
scenario sources "A", "B", key "x", scalar values 1 and 2. -/
theorem c3_witness :
    (("A" : String) ≠ "B") ∧ isScalar (.pyInt 1) = true ∧
    isScalar (.pyInt 2) = true ∧
    (mergeResults (collectAgentResults (collectAgentResults MergeState.empty "A"
      [("y", .pyInt 1)]) "B" [("y", .pyInt 2)]) = .ok ⟨[("y", .pyInt 2)], 0, 0, ["A", "B"]⟩ ∧
    (collectAgentResults (collectAgentResults MergeState.empty "A"
      [("y", .pyInt 1)]) "B" [("y", .pyInt 2)]).conflicts = []) :=
  ⟨by decide, rfl, rfl,
    c3_scalar_overwrite_silent "A" "B" "y" (.pyInt 1) (.pyInt 2)
      (by decide) rfl rfl⟩

/-- Claim C8: merging two collected outcomes with disjoint key sets (with
well-formed payloads: distinct keys, and any dict value itself has
distinct keys, as every real Python dict does) produces the key-wise
union of the two payloads, reports zero conflicts, and the merged data is
lookup-equal (Python dict equality) regardless of the collection order. -/
theorem c8_disjoint_merge_union_order_independent
    (a b : String) (ra rb : Dict) (hab : a ≠ b)
    (hna : (dictKeys ra).Nodup) (hnb : (dictKeys rb).Nodup)
    (hdisj : ∀ k ∈ dictKeys ra, k ∉ dictKeys rb)
    (hwa : ∀ kv ∈ ra, wfVal kv.2) (hwb : ∀ kv ∈ rb, wfVal kv.2) :
    ∃ m1 m2,
      mergeResults (collectAgentResults (collectAgentResults
        MergeState.empty a ra) b rb) = .ok m1 ∧
      mergeResults (collectAgentResults (collectAgentResults
        MergeState.empty b rb) a ra) = .ok m2 ∧
      m1.totalConflicts = 0 ∧ m2.totalConflicts = 0 ∧
      (∀ k, dictGet m1.mergedData k =
        match dictGet ra k with
        | some v => some v
        | none => dictGet rb k) ∧
      (∀ k, dictGet m2.mergedData k = dictGet m1.mergedData k) := by
  have hd1 : ∀ k ∈ dictKeys rb, dictGet ra k = none := by
    intro k hk
    cases hra : dictGet ra k with
    | some v =>
      exact absurd hk (hdisj k (mem_dictKeys_of_dictGet ra k v hra))
    | none => rfl
  have hd2 : ∀ k ∈ dictKeys ra, dictGet rb k = none := by
    intro k hk
    cases hrb : dictGet rb k with
    | some v =>
      exact absurd (mem_dictKeys_of_dictGet rb k v hrb) (hdisj k hk)
    | none => rfl
  obtain ⟨m1, hm1, hc1, hg1⟩ := mergeResults_two_fresh a b ra rb hab hna hnb hd1
  obtain ⟨m2, hm2, hc2, hg2⟩ :=
    mergeResults_two_fresh b a rb ra (Ne.symm hab) hnb hna hd2
  have hchar1 : ∀ k, dictGet m1.mergedData k =
      match dictGet ra k with
      | some v => some v
      | none => dictGet rb k := by
    intro k
    rw [hg1 k]
    cases hra : dictGet ra k with
    | some v =>
      have hrb : dictGet rb k = none :=
        hd2 k (mem_dictKeys_of_dictGet ra k v hra)
      rw [hrb]
      simp only []
      rw [freshMerge_eq_self v (hwa (k, v) (mem_of_dictGet ra k v hra))]
    | none =>
      cases hrb : dictGet rb k with
      | some w =>
        simp only []
        rw [freshMerge_eq_self w (hwb (k, w) (mem_of_dictGet rb k w hrb))]
      | none => rfl
  refine ⟨m1, m2, hm1, hm2, hc1, hc2, hchar1, ?_⟩
  intro k
  rw [hg2 k, hchar1 k]
  cases hra : dictGet ra k with
  | some v =>
    have hrb : dictGet rb k = none :=
      hd2 k (mem_dictKeys_of_dictGet ra k v hra)
    rw [hrb]
    simp only []
    rw [freshMerge_eq_self v (hwa (k, v) (mem_of_dictGet ra k v hra))]
  | none =>
    cases hrb : dictGet rb k with
    | some w =>
      simp only []
      rw [freshMerge_eq_self w (hwb (k, w) (mem_of_dictGet rb k w hrb))]
    | none => rfl

/-- Claim C8 witness: the theorem applied to the spec's concrete scenario
`{A: {x: 1}}` and `{B: {y: 2}}`. -/
theorem c8_witness :
    (("A" : String) ≠ "B") ∧ (dictKeys [("x", PyVal.pyInt 1)]).Nodup ∧
    (dictKeys [("y", PyVal.pyInt 2)]).Nodup ∧
    (∀ k ∈ dictKeys [("x", PyVal.pyInt 1)], k ∉ dictKeys [("y", PyVal.pyInt 2)]) ∧
    (∀ kv ∈ ([("x", PyVal.pyInt 1)] : Dict), wfVal kv.2) ∧
    (∀ kv ∈ ([("y", PyVal.pyInt 2)] : Dict), wfVal kv.2) ∧
    (∃ m1 m2,
      mergeResults (collectAgentResults (collectAgentResults
        MergeState.empty "A" [("x", .pyInt 1)]) "B" [("y", .pyInt 2)]) = .ok m1 ∧
      mergeResults (collectAgentResults (collectAgentResults
        MergeState.empty "B" [("y", .pyInt 2)]) "A" [("x", .pyInt 1)]) = .ok m2 ∧
      m1.totalConflicts = 0 ∧ m2.totalConflicts = 0 ∧
      (∀ k, dictGet m1.mergedData k =
        match dictGet [("x", PyVal.pyInt 1)] k with
        | some v => some v
        | none => dictGet [("y", PyVal.pyInt 2)] k) ∧
      (∀ k, dictGet m2.mergedData k = dictGet m1.mergedData k)) :=
  ⟨by decide, by decide, by decide, by decide, by decide, by decide,
    c8_disjoint_merge_union_order_independent "A" "B"
      [("x", .pyInt 1)] [("y", .pyInt 2)] (by decide) (by decide) (by decide)
      (by decide) (by decide) (by decide)⟩

end AutoQA.Mrg

namespace AutoQA.Sched

/-- Claim C1 (counterexample): on the spec's own scenario — `A` with no
dependencies whose unit of work fails, `B` depending on `A` — the
scheduler adds the failed `A` to `executed` and dispatches `B` in the next
round (`B` appears in the batch trace and completes), contradicting
"a task whose outcome is any terminal state other than Completed is never
added to the executed set" and "every pending task that declares a
dependency on it ... is never dispatched". -/
theorem c1_failed_task_joins_executed_cex :
    runScheduler [⟨"A", [], 1, false⟩, ⟨"B", ["A"], 1, true⟩] 4 =
      (⟨["A", "B"], [], ["B"], ["A"], [["A"], ["B"]]⟩, .drained) ∧
    "A" ∈ (runScheduler [⟨"A", [], 1, false⟩, ⟨"B", ["A"], 1, true⟩] 4).1.executed ∧
    ["B"] ∈ (runScheduler [⟨"A", [], 1, false⟩, ⟨"B", ["A"], 1, true⟩] 4).1.batches ∧
    succeedsOf [⟨"A", [], 1, false⟩, ⟨"B", ["A"], 1, true⟩] "A" = false := by
  decide

/-- Claim C1 (amended): every task of a dispatched batch is added to the
`executed` set regardless of its outcome — a failing task is appended to
`failed_tests` but still joins `executed`, so its dependents become ready
and are dispatched in later rounds instead of staying permanently
blocked. -/
theorem c1_batch_tasks_always_join_executed (tasks : List OTask)
    (s : SchedState) (batch : List String) (id : String) (hid : id ∈ batch) :
    id ∈ (processBatch tasks s batch).executed ∧
    (succeedsOf tasks id = false →
      id ∈ (processBatch tasks s batch).failedTests) :=
  ⟨processBatch_mem_executed tasks batch s id hid,
   fun hf => processBatch_mem_failed tasks batch s id hid hf⟩

/-- Claim C1 witness: the amended statement applied to a concrete batch
containing the failing task "A". -/
theorem c1_witness :
    ("A" ∈ (["A"] : List String)) ∧
    ("A" ∈ (processBatch [⟨"A", [], 1, false⟩]
        (initSched [⟨"A", [], 1, false⟩]) ["A"]).executed ∧
      (succeedsOf [⟨"A", [], 1, false⟩] "A" = false →
        "A" ∈ (processBatch [⟨"A", [], 1, false⟩]
          (initSched [⟨"A", [], 1, false⟩]) ["A"]).failedTests)) :=
  ⟨by decide,
    c1_batch_tasks_always_join_executed [⟨"A", [], 1, false⟩]
      (initSched [⟨"A", [], 1, false⟩]) ["A"] "A" (by decide)⟩

/-- Claim C5 (counterexample): on the graph `{C: [], A: [B], B: [A]}`
(cycle `A - B` plus the independent `C`), the run exits the loop in the
deadlock branch with `pending = [A, B]`, but records nothing about the
stuck tasks: `failed_tests` is empty and `completed_tests` contains only
`C` — the code merely logs and `break`s and the remaining pending set is
silently dropped, contradicting "reports a DependencyUnsatisfiable fatal
condition covering the entire remaining pending set — it does not
silently drop the pending tasks". -/
theorem c5_pending_dropped_cex :
    runScheduler [⟨"C", [], 1, true⟩, ⟨"A", ["B"], 1, true⟩,
        ⟨"B", ["A"], 1, true⟩] 4 =
      (⟨["C"], ["A", "B"], ["C"], [], [["C"]]⟩, .deadlock) ∧
    (runScheduler [⟨"C", [], 1, true⟩, ⟨"A", ["B"], 1, true⟩,
        ⟨"B", ["A"], 1, true⟩] 4).1.failedTests = [] ∧
    (runScheduler [⟨"C", [], 1, true⟩, ⟨"A", ["B"], 1, true⟩,
        ⟨"B", ["A"], 1, true⟩] 4).1.pending = ["A", "B"] := by
  decide

/-- Claim C5 (amended): when a round finds the ready set empty while
`pending` is non-empty, the scheduler stops looping (the `break` branch,
modelled as the `deadlock` exit), keeping the already-collected outcome
lists — but it reports nothing for the stuck tasks: every id still
pending at exit appears in neither `completed_tests` nor `failed_tests`
(it is silently dropped), and the deadlock exit indeed leaves a non-empty
pending set. -/
theorem c5_deadlock_stops_and_drops_pending (tasks : List OTask)
    (maxPar : Nat) (hn : (tasks.map OTask.taskId).Nodup) :
    ((runScheduler tasks maxPar).2 = .deadlock →
      (runScheduler tasks maxPar).1.pending ≠ []) ∧
    ∀ id ∈ (runScheduler tasks maxPar).1.pending,
      id ∉ (runScheduler tasks maxPar).1.completedTests ∧
      id ∉ (runScheduler tasks maxPar).1.failedTests := by
  constructor
  · exact runLoop_deadlock_pending tasks maxPar tasks.length (initSched tasks)
  · have h := runLoop_SInv tasks maxPar tasks.length (initSched tasks)
      ⟨hn, fun id hid => ⟨List.not_mem_nil id, List.not_mem_nil id⟩⟩
    exact h.2

/-- Claim C5 witness: the amended statement applied to the one-task cycle
`{A: [A]}`. -/
theorem c5_witness :
    (([⟨"A", ["A"], 1, true⟩] : List OTask).map OTask.taskId).Nodup ∧
    (((runScheduler [⟨"A", ["A"], 1, true⟩] 4).2 = .deadlock →
        (runScheduler [⟨"A", ["A"], 1, true⟩] 4).1.pending ≠ []) ∧
      ∀ id ∈ (runScheduler [⟨"A", ["A"], 1, true⟩] 4).1.pending,
        id ∉ (runScheduler [⟨"A", ["A"], 1, true⟩] 4).1.completedTests ∧
        id ∉ (runScheduler [⟨"A", ["A"], 1, true⟩] 4).1.failedTests) :=
  ⟨by decide,
    c5_deadlock_stops_and_drops_pending [⟨"A", ["A"], 1, true⟩] 4 (by decide)⟩

/-- Claim C9 (counterexample): with two independent tasks inserted as
`t1` (priority 2) then `t2` (priority 1), the dispatched batch is
`[t1, t2]` — the pending set's iteration order — whereas the claimed
"ascending priority, then insertion order" selection (the spec-side
`specBatchOrder`) would dispatch `[t2, t1]`:
`_execute_tasks_with_parallel` never reads `priority` at all (only the
legacy sequential `OrchestratorAgent._execute_tasks` sorts by priority,
and it has neither a ready set nor a ceiling). -/
theorem c9_batch_ignores_priority_cex :
    (runScheduler [⟨"t1", [], 2, true⟩, ⟨"t2", [], 1, true⟩] 4).1.batches =
      [["t1", "t2"]] ∧
    specBatchOrder [⟨"t1", [], 2, true⟩, ⟨"t2", [], 1, true⟩]
      (readyTasks [⟨"t1", [], 2, true⟩, ⟨"t2", [], 1, true⟩]
        (initSched [⟨"t1", [], 2, true⟩, ⟨"t2", [], 1, true⟩])) =
      ["t2", "t1"] ∧
    (["t1", "t2"] : List String) ≠ ["t2", "t1"] := by
  decide

/-- Claim C9 (amended): each dispatched batch is the ready list truncated
to at most the `max_parallel` ceiling, taken in the pending set's
iteration order with no priority sort (scheduling is a pure function of
the graph and ceiling, hence trivially reproducible): every batch in the
dispatch trace has length at most the ceiling. -/
theorem c9_batches_within_ceiling (tasks : List OTask) (maxPar : Nat)
    (b : List String) (hb : b ∈ (runScheduler tasks maxPar).1.batches) :
    b.length ≤ maxPar :=
  runLoop_BInv tasks maxPar tasks.length (initSched tasks)
    (fun b hb => absurd hb (List.not_mem_nil b)) b hb

/-- Claim C9 witness: the amended statement applied to a concrete
single-task run with ceiling 3. -/
theorem c9_witness :
    (["A"] ∈ (runScheduler [⟨"A", [], 1, true⟩] 3).1.batches) ∧
    (["A"] : List String).length ≤ 3 :=
  ⟨by decide,
    c9_batches_within_ceiling [⟨"A", [], 1, true⟩] 3 ["A"] (by decide)⟩

end AutoQA.Sched

namespace AutoQA.TMgr

/-- Claim C2 (counterexample): (1) a running task cancelled by
`cancel_task` reaches the terminal status `CANCELLED`, yet when its
in-flight unit of work later returns, `_execute_task` overwrites the
status to `COMPLETED` — a second terminal transition; (2) `shutdown` then
runs `_cleanup_task` again for the already-cleaned record, so its cleanup
handlers run twice; (3) a task refused at the ceiling is marked `FAILED`
yet `_execute_task` returns before the `try/finally`, so its cleanup
handlers run zero times.  Each part contradicts "exactly one terminal
state exactly once" / "cleanup handlers are invoked exactly once per
task, even when the task is cancelled ... or the manager is shut
down". -/
theorem c2_terminal_overwritten_cex :
    statusOf (run (initM 10) [.create "t", .startExec "t", .cancel "t"]) "t" =
      some .cancelled ∧
    isTerminal .cancelled = true ∧
    statusOf (run (initM 10) [.create "t", .startExec "t", .cancel "t",
      .finish "t" (.ok "r")]) "t" = some .completed ∧
    (run (initM 10) [.create "t", .startExec "t", .cancel "t",
      .finish "t" (.ok "r")]).cleanupLog = ["t"] ∧
    (run (initM 10) [.create "t", .startExec "t", .cancel "t",
      .finish "t" (.ok "r"), .shutdown]).cleanupLog = ["t", "t"] ∧
    statusOf (run (initM 1) [.create "u", .startExec "u", .create "v",
      .startExec "v"]) "v" = some .failed ∧
    (run (initM 1) [.create "u", .startExec "u", .create "v",
      .startExec "v"]).cleanupLog = [] := by
  decide

/-- Claim C2 (amended): a task that is admitted under the ceiling, never
cancelled, and whose manager is not shut down does reach exactly one
terminal state with its cleanup handlers run exactly once: it is
`PENDING` after creation, `RUNNING` after admission with no cleanup yet,
and after its unit of work resolves it carries exactly the terminal
status determined by the outcome with exactly one `_cleanup_task`
invocation.  (Cancellation can be overwritten by the pending completion,
`shutdown` re-runs cleanup for retained records, and a capacity-refused
task gets no cleanup, per the counterexample.) -/
theorem c2_uncancelled_task_single_terminal (m : Nat) (hm : 0 < m)
    (o : Outcome) :
    statusOf (run (initM m) [.create "t"]) "t" = some .pending ∧
    statusOf (run (initM m) [.create "t", .startExec "t"]) "t" =
      some .running ∧
    (run (initM m) [.create "t", .startExec "t"]).cleanupLog = [] ∧
    statusOf (run (initM m) [.create "t", .startExec "t", .finish "t" o])
        "t" =
      some (match o with
            | .ok _ => .completed
            | .errored _ => .failed
            | .timedOut => .timeout) ∧
    isTerminal (match o with
            | .ok _ => TaskStatus.completed
            | .errored _ => .failed
            | .timedOut => .timeout) = true ∧
    (run (initM m) [.create "t", .startExec "t", .finish "t" o]).cleanupLog =
      ["t"] := by
  have h0 : ¬ (m ≤ 0) := by omega
  cases o <;>
    simp [run, step, stepCreate, stepStart, stepFinish, runCleanup, initM,
      taskSet, taskGet, newTask, statusOf, isTerminal, h0]

/-- Claim C2 witness: the amended statement at ceiling 10 with a
successful outcome. -/
theorem c2_witness :
    0 < 10 ∧
    (statusOf (run (initM 10) [.create "t"]) "t" = some .pending ∧
      statusOf (run (initM 10) [.create "t", .startExec "t"]) "t" =
        some .running ∧
      (run (initM 10) [.create "t", .startExec "t"]).cleanupLog = [] ∧
      statusOf (run (initM 10) [.create "t", .startExec "t",
          .finish "t" (.ok "r")]) "t" =
        some (match Outcome.ok "r" with
              | .ok _ => .completed
              | .errored _ => .failed
              | .timedOut => .timeout) ∧
      isTerminal (match Outcome.ok "r" with
              | .ok _ => TaskStatus.completed
              | .errored _ => .failed
              | .timedOut => .timeout) = true ∧
      (run (initM 10) [.create "t", .startExec "t",
        .finish "t" (.ok "r")]).cleanupLog = ["t"]) :=
  ⟨by decide, c2_uncancelled_task_single_terminal 10 (by decide) (.ok "r")⟩

/-- Claim C4: for every interleaving of creations, admissions,
completions, cancellations and shutdowns, the `running_tasks` counter of
a manager built with ceiling `m` never exceeds `m`: the admission block
increments only under the lock after its `running_tasks <
max_concurrent_tasks` check, and every other mutation leaves the counter
equal or smaller. -/
theorem c4_running_never_exceeds_ceiling (m : Nat) (evs : List MEvent) :
    (run (initM m) evs).runningTasks ≤ m := by
  have h := run_bound evs (initM m) (Nat.zero_le m)
  rw [run_max_eq] at h
  exact h

/-- Claim C6 (counterexample): a record still `PENDING` (created, its
`_execute_task` not yet scheduled) is NOT cancellable: `cancel_task`
returns `False` and leaves the state unchanged, contradicting "returns
true exactly when its status is Pending or Running". -/
theorem c6_pending_cancel_returns_false_cex :
    statusOf (run (initM 10) [.create "t"]) "t" = some .pending ∧
    (cancelTask (run (initM 10) [.create "t"]) "t").1 = false ∧
    (cancelTask (run (initM 10) [.create "t"]) "t").2 =
      run (initM 10) [.create "t"] := by
  decide

/-- Claim C6 (amended): `cancel_task` transitions the record to
`CANCELLED` and returns `True` exactly when its status is `RUNNING`; for
a record in any other status — `PENDING` included, as well as
`COMPLETED`/`FAILED` — it is a no-op returning `False` that leaves the
whole manager state (hence the record) unchanged. -/
theorem c6_cancel_only_running (s : MState) (id : String)
    (t : BackgroundTask) (hget : taskGet s.tasks id = some t) :
    ((cancelTask s id).1 = true ↔ t.status = .running) ∧
    (t.status ≠ .running → (cancelTask s id).2 = s) ∧
    (t.status = .running →
      statusOf (cancelTask s id).2 id = some .cancelled ∧
      (cancelTask s id).2.runningTasks = s.runningTasks) := by
  by_cases hr : t.status = .running
  · refine ⟨?_, fun hcon => absurd hr hcon, fun _ => ⟨?_, ?_⟩⟩
    · simp [cancelTask, hget, hr]
    · simp [cancelTask, hget, hr, statusOf, taskGet_taskSet_self]
    · simp [cancelTask, hget, hr]
  · refine ⟨?_, fun _ => ?_, fun hcon => absurd hcon hr⟩
    · simp [cancelTask, hget, hr]
    · simp [cancelTask, hget, hr]

/-- Claim C6 witness: the amended statement applied to a concrete state
holding the running record "t". -/
theorem c6_witness :
    taskGet (run (initM 10) [.create "t", .startExec "t"]).tasks "t" =
      some ⟨.running, none, none, some 1, none⟩ ∧
    (((cancelTask (run (initM 10) [.create "t", .startExec "t"]) "t").1 =
        true ↔
        (⟨.running, none, none, some 1, none⟩ : BackgroundTask).status =
          .running) ∧
      ((⟨.running, none, none, some 1, none⟩ : BackgroundTask).status ≠
          .running →
        (cancelTask (run (initM 10) [.create "t", .startExec "t"]) "t").2 =
          run (initM 10) [.create "t", .startExec "t"]) ∧
      ((⟨.running, none, none, some 1, none⟩ : BackgroundTask).status =
          .running →
        statusOf (cancelTask (run (initM 10)
            [.create "t", .startExec "t"]) "t").2 "t" = some .cancelled ∧
        (cancelTask (run (initM 10)
            [.create "t", .startExec "t"]) "t").2.runningTasks =
          (run (initM 10) [.create "t", .startExec "t"]).runningTasks)) :=
  ⟨by decide,
    c6_cancel_only_running (run (initM 10) [.create "t", .startExec "t"])
      "t" ⟨.running, none, none, some 1, none⟩ (by decide)⟩

/-- Claim C7 (counterexample): `create_task` performs no capacity check —
with ceiling 1 and "a" running, submitting "b" succeeds (the record is
registered `PENDING`), and once "a" finishes, "b"'s deferred
`_execute_task` admits it and it RUNS: a unit submitted while
`running_count` was at the ceiling is neither rejected at submission nor
prevented from executing, contradicting "rejected immediately with a
capacity error rather than being queued ... or executed". -/
theorem c7_submitted_at_ceiling_still_runs_cex :
    (run (initM 1) [.create "a", .startExec "a", .create "b"]).runningTasks
      = 1 ∧
    (run (initM 1)
        [.create "a", .startExec "a", .create "b"]).maxConcurrentTasks = 1 ∧
    statusOf (run (initM 1) [.create "a", .startExec "a", .create "b"]) "b" =
      some .pending ∧
    statusOf (run (initM 1) [.create "a", .startExec "a", .create "b",
      .finish "a" (.ok "ra"), .startExec "b"]) "b" = some .running := by
  decide

/-- Claim C7 (amended): the capacity check happens at the start of the
spawned `_execute_task`, not at submission: if `running_tasks` is at or
above the ceiling at that moment, the pending record is marked `FAILED`
with the error "Max concurrent tasks reached", the counter is untouched
and no cleanup runs (the function returns before the `try/finally`) —
but a task submitted at the ceiling still executes whenever capacity
frees up before its `_execute_task` gets scheduled. -/
theorem c7_capacity_checked_at_execution_start (s : MState) (id : String)
    (t : BackgroundTask) (hget : taskGet s.tasks id = some t)
    (hp : t.status = .pending)
    (hcap : s.maxConcurrentTasks ≤ s.runningTasks) :
    taskGet (stepStart s id).tasks id =
      some { t with status := .failed,
                    errorMsg := some "Max concurrent tasks reached" } ∧
    statusOf (stepStart s id) id = some .failed ∧
    errorOf (stepStart s id) id = some "Max concurrent tasks reached" ∧
    (stepStart s id).runningTasks = s.runningTasks ∧
    (stepStart s id).cleanupLog = s.cleanupLog := by
  refine ⟨?_, ?_, ?_, ?_, ?_⟩ <;>
    simp [stepStart, hget, hp, hcap, statusOf, errorOf, taskGet_taskSet_self]

/-- Claim C7 witness: the amended statement applied to a ceiling-0
manager holding the pending record "a". -/
theorem c7_witness :
    taskGet (run (initM 0) [.create "a"]).tasks "a" = some newTask ∧
    newTask.status = .pending ∧
    (run (initM 0) [.create "a"]).maxConcurrentTasks ≤
      (run (initM 0) [.create "a"]).runningTasks ∧
    (taskGet (stepStart (run (initM 0) [.create "a"]) "a").tasks "a" =
      some { newTask with status := .failed,
                          errorMsg := some "Max concurrent tasks reached" } ∧
    statusOf (stepStart (run (initM 0) [.create "a"]) "a") "a" =
      some .failed ∧
    errorOf (stepStart (run (initM 0) [.create "a"]) "a") "a" =
      some "Max concurrent tasks reached" ∧
    (stepStart (run (initM 0) [.create "a"]) "a").runningTasks =
      (run (initM 0) [.create "a"]).runningTasks ∧
    (stepStart (run (initM 0) [.create "a"]) "a").cleanupLog =
      (run (initM 0) [.create "a"]).cleanupLog) :=
  ⟨by decide, by decide, by decide,
    c7_capacity_checked_at_execution_start (run (initM 0) [.create "a"])
      "a" newTask (by decide) (by decide) (by decide)⟩

theorem applyCalls_some (ms : List Nat) :
    ∀ tm : MState, applyCalls (some tm) ms = some tm := by
  induction ms with
  | nil => intro tm; rfl
  | cons m rest ih => intro tm; exact ih tm

/-- Claim C10: `get_task_manager` is a memoized constructor of the
module-level global: the first call builds `TaskManager(max_concurrent)`
with its argument as the ceiling, and after any sequence of further
calls — whatever `max_concurrent` values they pass — every call returns
that same first instance unchanged, so the effective ceiling is fixed by
the first call. -/
theorem c10_get_task_manager_memoized (m1 m2 : Nat) (ms : List Nat) :
    (getTaskManager none m1).1 = initM m1 ∧
    (getTaskManager none m1).1.maxConcurrentTasks = m1 ∧
    applyCalls (getTaskManager none m1).2 ms = some (initM m1) ∧
    (getTaskManager (applyCalls (getTaskManager none m1).2 ms) m2).1 =
      initM m1 := by
  refine ⟨rfl, rfl, applyCalls_some ms (initM m1), ?_⟩
  rw [show applyCalls (getTaskManager none m1).2 ms = some (initM m1) from
    applyCalls_some ms (initM m1)]
  rfl

end AutoQA.TMgr
